import Mathlib

/-!
Verification of the News-Agent feed search/filter engine.

The development shallowly embeds the query/filter engine of the repository:
`streamlit_app.py` (term matching with quoted-exact semantics, child-term
combination, fetch-time cutoff, sort) and `app2.py` (keyword parsing with
`=`-prefix exact marker, substring matching, time-window parsing, limit
validation, deduplication, and the search pipeline).

Python strings are modelled as `List Char`; UTC instants as `Int` epoch
seconds (`datetime`/`timedelta` arithmetic on whole seconds is exact);
`None`-able values as `Option`; functions that raise as `Except`/`Option`.
Regular-expression and text predicates (`\w`, `\d`, `\s`, `str.lower`,
`str.strip`) are modelled over the ASCII range, which covers every string
the specification reasons about.
-/

namespace NewsAgent

/-! ### Character and string helpers -/

/-- ASCII model of Python `str.lower` / `str.casefold`: map `A`–`Z` to
`a`–`z`, leave everything else unchanged. -/
def lowerChar (c : Char) : Char :=
  if 'A' ≤ c ∧ c ≤ 'Z' then Char.ofNat (c.toNat + 32) else c

/-- Lower-case an entire string. -/
def lowerStr (s : List Char) : List Char := s.map lowerChar

/-- ASCII model of the regex class `\w`: letters, digits, underscore. -/
def wordChar (c : Char) : Bool := c.isAlphanum || c == '_'

/-- Left trim: drop leading whitespace (model of the leading half of
Python `str.strip`). -/
def trimLeft (s : List Char) : List Char := s.dropWhile Char.isWhitespace

/-- Model of Python `str.strip`: drop leading and trailing whitespace. -/
def trim (s : List Char) : List Char :=
  (trimLeft (trimLeft s).reverse).reverse

/-! ### streamlit_app.py — term matching -/

/-- `is_quoted` from `streamlit_app.py`: after stripping, at least two
characters with a double quote at both ends. -/
def is_quoted (term : List Char) : Bool :=
  let t := trim term
  decide (2 ≤ t.length) && (t.head? == some '"') && (t.getLast? == some '"')

/-- `strip_quotes` from `streamlit_app.py`: remove the outer quote pair of
a quoted term, otherwise just strip. -/
def strip_quotes (term : List Char) : List Char :=
  if is_quoted term then ((trim term).drop 1).dropLast else trim term

/-- Model of the Python string operator `needle in hay`: `needle` occurs
contiguously somewhere in `hay`. -/
def containsSub (hay needle : List Char) : Bool :=
  (List.range (hay.length + 1)).any fun i =>
    (hay.drop i).take needle.length == needle

/-- `loose_match` from `streamlit_app.py`: case-insensitive substring
containment. -/
def loose_match (haystack needle : List Char) : Bool :=
  containsSub (lowerStr haystack) (lowerStr needle)

/-- Whether position `i` of `hay` holds a word character (out-of-range
positions count as non-word, as at the ends of a regex subject). -/
def wordAt (hay : List Char) (i : Nat) : Bool :=
  match hay.get? i with
  | some c => wordChar c
  | none => false

/-- The regex word-boundary `\b` at position `i`: the word-ness of the
character before `i` differs from the word-ness of the character at `i`. -/
def boundaryAt (hay : List Char) (i : Nat) : Bool :=
  match i with
  | 0 => wordAt hay 0
  | j + 1 => wordAt hay j != wordAt hay (j + 1)

/-- Case-insensitive occurrence of `pat` at position `i` of `hay`. -/
def occursAt (hay pat : List Char) (i : Nat) : Bool :=
  ((lowerStr hay).drop i).take pat.length == lowerStr pat

/-- `exact_word_match` from `streamlit_app.py`: model of
`re.search(r"\b" + re.escape(phrase) + r"\b", haystack, re.IGNORECASE)` —
a case-insensitive occurrence of the (literal) phrase with a word boundary
at both ends. -/
def exact_word_match (haystack phrase : List Char) : Bool :=
  (List.range (haystack.length + 1)).any fun i =>
    occursAt haystack phrase i && boundaryAt haystack i &&
      boundaryAt haystack (i + phrase.length)

/-- `match_term` from `streamlit_app.py`: empty terms never match; quoted
terms use whole-word matching, unquoted terms use loose substring
matching. -/
def match_term (text term : List Char) : Bool :=
  if term = [] then false
  else if is_quoted term then exact_word_match text (strip_quotes term)
  else loose_match text term

/-- Separator-interleaving join, model of Python `sep.join(items)`. -/
def joinSep (sep : List Char) : List (List Char) → List Char
  | [] => []
  | [x] => x
  | x :: xs => x ++ sep ++ joinSep sep xs

/-- `children_match` from `streamlit_app.py`: blank child terms are
ignored; with no remaining children the item passes; mode `"ALL"` demands
every child match, any other mode (the UI offers `"ANY"`) demands at least
one. Returns the decision and the human-readable reason string. -/
def children_match (text : List Char) (children : List (List Char))
    (mode : List Char) : Bool × List Char :=
  let kids := children.filter fun c => trim c ≠ []
  if kids = [] then (true, "no child terms provided".toList)
  else
    let hits := kids.filter fun c => match_term text c
    if mode = "ALL".toList then
      let ok := hits.length == kids.length
      (ok, "children ".toList ++ joinSep " & ".toList kids ++ " ".toList ++
        (if ok then "all matched".toList else "not all matched".toList))
    else
      match hits with
      | h :: _ => (true, "child matched: ".toList ++ h)
      | [] => (false, "no child matched".toList)

/-! ### app2.py — keyword parsing and matching -/

/-- `normalize_text` from `app2.py`: strip surrounding whitespace (the
`or ""` None-guard is absorbed by modelling absent text as `[]`). -/
def normalize_text (s : List Char) : List Char := trim s

/-- A parsed keyword from `app2.py`'s `parse_keywords`: the term text and
whether it was marked exact with a `=` prefix. -/
structure Kwd where
  text : List Char
  exact : Bool
deriving DecidableEq, Repr

/-- The inner `to_kwd` of `parse_keywords` in `app2.py`: strip, detect and
remove a leading `=`, strip again. -/
def to_kwd (raw : List Char) : Kwd :=
  let r := trim raw
  if r.head? = some '=' then ⟨trim (r.drop 1), true⟩ else ⟨r, false⟩

/-- `parse_keywords` from `app2.py`: drop blank inputs, parse each with
`to_kwd`; the first parsed keyword is the parent and the next at most five
are the children. -/
def parse_keywords (keywords : List (List Char)) : Option Kwd × List Kwd :=
  if keywords = [] then (none, [])
  else
    let parsed := (keywords.filter fun k => k ≠ [] ∧ trim k ≠ []).map to_kwd
    (parsed.head?, (parsed.drop 1).take 5)

/-- `text_matches_keyword` from `app2.py`: case-insensitive substring
check; an empty needle never matches. The `exact` tag is not consulted. -/
def text_matches_keyword (text : List Char) (kwd : Kwd) : Bool :=
  let haystack := lowerStr text
  let needle := lowerStr kwd.text
  !needle.isEmpty && containsSub haystack needle

/-- `matches_parent_children` from `app2.py`: no parent means everything
passes; otherwise the parent must match, and when children are present at
least one child must match as well. -/
def matches_parent_children (title summary : List Char) (parent : Option Kwd)
    (children : List Kwd) : Bool :=
  let blob := trim (title ++ [' '] ++ summary)
  match parent with
  | none => true
  | some p =>
    if ¬ text_matches_keyword blob p then false
    else if children = [] then true
    else children.any fun c => text_matches_keyword blob c

/-! ### app2.py — limit validation -/

/-- The `allowed` set of `validate_limit` in `app2.py`:
`{1} | set(range(5, 51, 5))`. -/
def allowed_limits : List Int :=
  [1, 5, 10, 15, 20, 25, 30, 35, 40, 45, 50]

/-- `validate_limit` from `app2.py`: values outside `allowed_limits` raise
`click.BadParameter`, modelled as `Except.error`; allowed values are
returned unchanged. -/
def validate_limit (value : Int) : Except (List Char) Int :=
  if value ∈ allowed_limits then Except.ok value
  else Except.error ("--limit must be 1 or 5,10,15,...,50".toList)

/-! ### app2.py — time-window parsing

Instants are epoch seconds (`Int`); `datetime - timedelta` is exact
integer arithmetic at this granularity. -/

/-- Decimal value of a digit string, the model of Python `int(...)` on the
regex group. -/
def natOfDigits (ds : List Char) : Nat :=
  ds.foldl (fun a c => a * 10 + (c.toNat - 48)) 0

/-- The seconds in one unit of the duration table of `parse_since_until`
(`s`/`m`/`h`/`d`, anything else reachable only as `w`). -/
def unitSeconds (u : Char) : Int :=
  if u = 's' then 1
  else if u = 'm' then 60
  else if u = 'h' then 3600
  else if u = 'd' then 86400
  else 604800

/-- Model of `_DURATION_RE.match` in `app2.py`, the anchored
case-insensitive regex `\s*(\d+)\s*([smhdw])\s*`: returns the quantity and
the lower-cased unit on success. -/
def durationMatch (s : List Char) : Option (Nat × Char) :=
  let s1 := s.dropWhile Char.isWhitespace
  let ds := s1.takeWhile Char.isDigit
  if ds = [] then none
  else
    match (s1.dropWhile Char.isDigit).dropWhile Char.isWhitespace with
    | [] => none
    | u :: rest =>
      let ul := lowerChar u
      if ul = 's' ∨ ul = 'm' ∨ ul = 'h' ∨ ul = 'd' ∨ ul = 'w' then
        if rest.dropWhile Char.isWhitespace = [] then
          some (natOfDigits ds, ul)
        else none
      else none

/-- Proleptic-Gregorian leap-year test, as used by Python `datetime`. -/
def isLeap (y : Int) : Bool :=
  y % 4 = 0 ∧ (y % 100 ≠ 0 ∨ y % 400 = 0)

/-- Length of a month in the proleptic Gregorian calendar. -/
def daysInMonth (y m : Int) : Int :=
  if m = 2 then (if isLeap y then 29 else 28)
  else if m = 4 ∨ m = 6 ∨ m = 9 ∨ m = 11 then 30
  else 31

/-- Days from 1970-01-01 to the given civil date (Gregorian), the standard
days-from-civil computation used to turn a date into an epoch count. -/
def daysFromCivil (y m d : Int) : Int :=
  let y' := if m ≤ 2 then y - 1 else y
  let era := (if 0 ≤ y' then y' else y' - 399) / 400
  let yoe := y' - era * 400
  let mp := if 2 < m then m - 3 else m + 9
  let doy := (153 * mp + 2) / 5 + d - 1
  let doe := yoe * 365 + yoe / 4 - yoe / 100 + doy
  era * 146097 + doe - 719468

/-- Epoch seconds of UTC midnight of a civil date. -/
def epochOfDate (y m d : Int) : Int := 86400 * daysFromCivil y m d

/-- Model of one numeric field of `datetime.strptime` for directives such
as `%m`/`%d` that accept one or two digits: the maximal digit run must have
length 1 or 2 and a value in `[1, hi]`. Returns the value and the rest of
the string. -/
def readField2 (s : List Char) (hi : Nat) : Option (Nat × List Char) :=
  let run := s.takeWhile Char.isDigit
  let rest := s.dropWhile Char.isDigit
  if run.length = 1 ∨ run.length = 2 then
    let v := natOfDigits run
    if 1 ≤ v ∧ v ≤ hi then some (v, rest) else none
  else none

/-- Model of `datetime.strptime(s, "%Y<sep>%m<sep>%d")` on a stripped
string followed by `replace(tzinfo=utc)`: a four-digit year, the
separator, a one-or-two-digit month, the separator, a one-or-two-digit
day, end of string; the assembled date must be a valid calendar date with
year at least 1. Result is UTC midnight in epoch seconds. -/
def parseDateFmt (s : List Char) (sep : Char) : Option Int :=
  let yrun := s.takeWhile Char.isDigit
  if yrun.length = 4 then
    let y := natOfDigits yrun
    match s.dropWhile Char.isDigit with
    | c1 :: rest1 =>
      if c1 = sep then
        match readField2 rest1 12 with
        | some (m, c2 :: rest2) =>
          if c2 = sep then
            match readField2 rest2 31 with
            | some (d, []) =>
              if 1 ≤ y ∧ (d : Int) ≤ daysInMonth y m then
                some (epochOfDate y m d)
              else none
            | _ => none
          else none
        | _ => none
      else none
    | [] => none
  else none

/-- `parse_datetime_string` from `app2.py`: strip, then try the formats
`%Y-%m-%d` and `%Y/%m/%d` in order; `None` when both fail. -/
def parse_datetime_string (s : List Char) : Option Int :=
  let t := trim s
  match parseDateFmt t '-' with
  | some v => some v
  | none => parseDateFmt t '/'

/-- `parse_since_until` from `app2.py`: empty input gives no bound; a
relative duration `N<unit>` gives `now - N * unit`; otherwise fall back to
the absolute-date formats; `None` when nothing matches. -/
def parse_since_until (s : List Char) (now : Int) : Option Int :=
  if s = [] then none
  else
    match durationMatch s with
    | some (qty, u) => some (now - (qty : Int) * unitSeconds u)
    | none => parse_datetime_string s

/-! ### app2.py — pipeline entries, time filter, dedupe, sort, limit -/

/-- A feed item as carried through `cmd_search` in `app2.py`: the text
fields, the resolved `published` instant (`none` when no timestamp could
be parsed) and the source title. -/
structure Entry where
  title : List Char
  link : List Char
  summary : List Char
  published : Option Int
  source : List Char
deriving DecidableEq, Repr

/-- The first `continue` of the filter loop in `cmd_search`:
`if dt_since and published and published < dt_since`. A `None` bound or a
`None` published short-circuits the conjunction, so the item is kept. -/
def since_drops (dtSince : Option Int) (pub : Option Int) : Bool :=
  match dtSince, pub with
  | some s, some p => decide (p < s)
  | _, _ => false

/-- The second `continue` of the filter loop in `cmd_search`:
`if dt_until and published and published > dt_until`. -/
def until_drops (dtUntil : Option Int) (pub : Option Int) : Bool :=
  match dtUntil, pub with
  | some u, some p => decide (u < p)
  | _, _ => false

/-- The per-entry body of the collection loop of `cmd_search` in
`app2.py`: normalize the text fields, apply the two time-bound
`continue`s, apply the keyword filter when any keyword was given, and
default an empty title to `"(no title)"`. -/
def collectEntries (dtSince dtUntil : Option Int) (parent : Option Kwd)
    (children : List Kwd) (raw : List Entry) : List Entry :=
  raw.filterMap fun r =>
    let title := normalize_text r.title
    let link := normalize_text r.link
    let summary := normalize_text r.summary
    if since_drops dtSince r.published then none
    else if until_drops dtUntil r.published then none
    else if (parent.isSome || !children.isEmpty) &&
        !matches_parent_children title summary parent children then none
    else some
      { title := if title = [] then "(no title)".toList else title
        link := link
        summary := summary
        published := r.published
        source := r.source }

/-- The dedup key of `dedupe_entries` in `app2.py`:
`(e.get("title", "").strip(), e.get("link", "").strip())`. -/
def dkey (e : Entry) : List Char × List Char := (trim e.title, trim e.link)

/-- The loop of `dedupe_entries` with its `seen` set carried explicitly. -/
def dedupe_go (seen : List (List Char × List Char)) :
    List Entry → List Entry
  | [] => []
  | e :: es =>
    if dkey e ∈ seen then dedupe_go seen es
    else e :: dedupe_go (dkey e :: seen) es

/-- `dedupe_entries` from `app2.py`: keep the first entry for each
stripped `(title, link)` key, preserving order. -/
def dedupe_entries (entries : List Entry) : List Entry := dedupe_go [] entries

/-- `sort_key` from `cmd_search` in `app2.py`:
`(0, -published.timestamp())` for dated entries, `(1, 0)` for undated
ones; ascending lexicographic order on these keys is descending by date
with undated entries last. -/
def sort_key (e : Entry) : Int × Int :=
  match e.published with
  | some t => (0, -t)
  | none => (1, 0)

/-- Ascending lexicographic comparison of sort keys. -/
def keyLe (a b : Int × Int) : Bool :=
  decide (a.1 < b.1) || (a.1 == b.1 && decide (a.2 ≤ b.2))

/-- Ordered insertion placing the new element after every element it ties
with, the building block of a stable ascending sort. -/
def insertEntry (x : Entry) : List Entry → List Entry
  | [] => [x]
  | y :: ys =>
    if keyLe (sort_key y) (sort_key x) then y :: insertEntry x ys
    else x :: y :: ys

/-- Model of `all_entries.sort(key=sort_key)` in `app2.py`. Python's
`list.sort` is specified as a stable ascending sort by key, which
determines its output uniquely; stable insertion sort realizes that
specification. -/
def sortEntries (entries : List Entry) : List Entry :=
  entries.foldl (fun acc x => insertEntry x acc) []

/-- The ordering the specification states for results: non-increasing by
`published`, with unknown (`none`) timestamps after every known one. -/
def pub_ge (a b : Entry) : Bool :=
  match a.published, b.published with
  | _, none => true
  | some ta, some tb => decide (tb ≤ ta)
  | none, some _ => false

/-- The tail of `cmd_search` in `app2.py` after the collection loop:
deduplicate, sort, and truncate to the validated limit
(`all_entries[:limit]`). -/
def cmd_search_core (raw : List Entry) (dtSince dtUntil : Option Int)
    (parent : Option Kwd) (children : List Kwd) (limit : Nat) :
    List Entry :=
  (sortEntries (dedupe_entries
    (collectEntries dtSince dtUntil parent children raw))).take limit

/-! ### streamlit_app.py — item normalizer -/

/-- The first six components of a `time.struct_time`, the `val[:6]` that
`safe_parse_date` passes to the `datetime` constructor. -/
structure StructTime where
  year : Int
  month : Int
  mday : Int
  hour : Int
  minute : Int
  sec : Int
deriving DecidableEq, Repr

/-- Model of `datetime(*val[:6])`: the constructor validates every field
range (raising `ValueError` on failure, modelled as `none`) and otherwise
denotes the instant in epoch seconds. -/
def structToDatetime (st : StructTime) : Option Int :=
  if 1 ≤ st.year ∧ st.year ≤ 9999 ∧ 1 ≤ st.month ∧ st.month ≤ 12 ∧
      1 ≤ st.mday ∧ st.mday ≤ daysInMonth st.year st.month ∧
      0 ≤ st.hour ∧ st.hour ≤ 23 ∧ 0 ≤ st.minute ∧ st.minute ≤ 59 ∧
      0 ≤ st.sec ∧ st.sec ≤ 59 then
    some (86400 * daysFromCivil st.year st.month st.mday +
      3600 * st.hour + 60 * st.minute + st.sec)
  else none

/-- A raw feed entry as seen by `safe_parse_date` in `streamlit_app.py`:
the three free-text date fields and the two struct-time fields. `none`
stands for a missing or falsy field. -/
structure FeedEntry where
  published : Option (List Char)
  updated : Option (List Char)
  created : Option (List Char)
  published_parsed : Option StructTime
  updated_parsed : Option StructTime
deriving DecidableEq, Repr

/-- `safe_parse_date` from `streamlit_app.py`, parameterized by `dtp`, the
external `dateutil.parser.parse` collaborator (`none` models a raised
exception, which the code swallows): first the free-text fields
`published`, `updated`, `created` in order, then the struct-time fields
`published_parsed`, `updated_parsed`; `none` when every attempt fails. -/
def safe_parse_date (dtp : List Char → Option Int) (e : FeedEntry) :
    Option Int :=
  match e.published.bind dtp with
  | some t => some t
  | none =>
  match e.updated.bind dtp with
  | some t => some t
  | none =>
  match e.created.bind dtp with
  | some t => some t
  | none =>
  match e.published_parsed.bind structToDatetime with
  | some t => some t
  | none =>
  match e.updated_parsed.bind structToDatetime with
  | some t => some t
  | none => none

/-- Modelled from the spec: the external `dateutil.parser.parse`
free-text date parser (a third-party dependency, not part of this
repository), restricted to the ISO `YYYY-MM-DD` date strings used in the
concrete instances below; it parses such strings to the UTC midnight of
that date and fails on anything else. -/
def dateutil_parse_model (s : List Char) : Option Int :=
  parse_datetime_string s

/-! ### Concrete instances used by counterexamples and witnesses -/

/-- An entry with an unknown `published` timestamp. -/
def entry_no_pub : Entry :=
  ⟨"t".toList, "l".toList, "s".toList, none, "src".toList⟩

/-- An entry whose title carries a trailing space. -/
def entry_spaced : Entry :=
  ⟨"a ".toList, "x".toList, "s1".toList, none, "f".toList⟩

/-- An entry with the same stripped title/link as `entry_spaced` but a
different summary. -/
def entry_plain : Entry :=
  ⟨"a".toList, "x".toList, "s2".toList, none, "f".toList⟩

/-- A feed entry carrying both a parsable free-text `published` string
(2025-01-02) and a valid `published_parsed` struct time (2026-03-04
05:06:07) that denote different instants. -/
def feed_entry_both : FeedEntry :=
  ⟨some ("2025-01-02".toList), none, none, some ⟨2026, 3, 4, 5, 6, 7⟩, none⟩

/-- A feed entry with no `published` text, an `updated` text, and an
`updated_parsed` struct time. -/
def feed_entry_updated : FeedEntry :=
  ⟨none, some ("2025-01-02".toList), none, none, some ⟨2026, 3, 4, 5, 6, 7⟩⟩

/-! ### Helper lemmas -/

theorem dropWhile_append_all {p : Char → Bool} {l₁ l₂ : List Char}
    (h : ∀ c ∈ l₁, p c = true) :
    (l₁ ++ l₂).dropWhile p = l₂.dropWhile p := by
  induction l₁ with
  | nil => rfl
  | cons c cs ih =>
    have hc : p c = true := h c (List.mem_cons_self _ _)
    simp only [List.cons_append, List.dropWhile_cons, hc, if_true]
    exact ih fun x hx => h x (List.mem_cons_of_mem _ hx)

theorem takeWhile_append_all {p : Char → Bool} {l₁ l₂ : List Char}
    (h : ∀ c ∈ l₁, p c = true) (h2 : l₂.takeWhile p = []) :
    (l₁ ++ l₂).takeWhile p = l₁ := by
  induction l₁ with
  | nil => exact h2
  | cons c cs ih =>
    have hc : p c = true := h c (List.mem_cons_self _ _)
    simp only [List.cons_append, List.takeWhile_cons, hc, if_true]
    rw [ih fun x hx => h x (List.mem_cons_of_mem _ hx)]

theorem dropWhile_append_none {p : Char → Bool} {l₁ l₂ : List Char}
    (h : ∀ c ∈ l₁, p c = true) (h2 : l₂.dropWhile p = l₂) :
    (l₁ ++ l₂).dropWhile p = l₂ := by
  rw [dropWhile_append_all h, h2]

theorem dropWhile_eq_nil_all {p : Char → Bool} {l : List Char}
    (h : ∀ c ∈ l, p c = true) : l.dropWhile p = [] := by
  have := @dropWhile_append_all p l [] h
  simpa using this

theorem ws_not_digit {c : Char} (h : c.isWhitespace = true) :
    c.isDigit = false := by
  simp only [Char.isWhitespace, Bool.or_eq_true, decide_eq_true_eq] at h
  rcases h with ((h | h) | h) | h <;> subst h <;> decide

theorem digit_not_ws {c : Char} (h : c.isDigit = true) :
    c.isWhitespace = false := by
  cases hw : c.isWhitespace
  · rfl
  · rw [ws_not_digit hw] at h; cases h

/-! ### C1 -/

/-- C1: the claim states that for every exact-tagged term the evaluator
matches exactly the word-boundary-delimited occurrences, so that exact
`"AI"` matches `"AI-powered deal"` and does not match `"SAId something"`.
The streamlit evaluator `match_term` behaves as claimed on these inputs,
but the app2 evaluator `text_matches_keyword` ignores the `exact` tag and
applies a plain case-insensitive substring test, so the exact term `AI`
does match `SAId something` there (`"ai"` is a substring of `"said"`),
contradicting the claim and the CLI help text that advertises
`=`-prefixed terms as exact. -/
theorem c1_exact_matching_divergence :
    match_term ("AI-powered deal".toList) ("\"AI\"".toList) = true ∧
    match_term ("SAId something".toList) ("\"AI\"".toList) = false ∧
    match_term ("SAId something".toList) ("AI".toList) = true ∧
    text_matches_keyword ("SAId something".toList) ⟨"AI".toList, true⟩ = true := by
  refine ⟨by decide, by decide, by decide, by decide⟩

/-! ### C4 -/

/-- C4 (counterexample): the claim states that with an active lower bound
an item with unknown `published` is dropped; with `since = some 0` active,
the collection loop keeps `entry_no_pub` even though its `published` is
`none`, because `dt_since and published and ...` is falsy when
`published` is `None`. -/
theorem c4_counterexample :
    entry_no_pub.published = none ∧
    collectEntries (some 0) none none [] [entry_no_pub] = [entry_no_pub] := by
  refine ⟨rfl, by decide⟩

/-- C4 (amended): in the pipeline's time-filter stage an item with
unknown `published` is always kept (even when a lower bound is active),
and an item with a known timestamp is dropped exactly when it falls
outside the `[since, until]` window. -/
theorem c4_time_filter (dtSince dtUntil : Option Int) (pub : Option Int) :
    (since_drops dtSince pub || until_drops dtUntil pub) = false ↔
      (pub = none ∨ ∃ p, pub = some p ∧
        (∀ s, dtSince = some s → s ≤ p) ∧
        (∀ u, dtUntil = some u → p ≤ u)) := by
  cases pub with
  | none =>
    cases dtSince <;> cases dtUntil <;> simp [since_drops, until_drops]
  | some p =>
    cases dtSince <;> cases dtUntil <;> simp [since_drops, until_drops]

/-- C4 witness: a dated item inside the window passes the filter with an
active lower bound. -/
theorem c4_time_filter_witness :
    (since_drops (some 0) (some 5) || until_drops none (some 5)) = false :=
  (c4_time_filter (some 0) none (some 5)).mpr
    (Or.inr ⟨5, rfl, by intro s hs; cases hs; omega, by intro u hu; cases hu⟩)

/-! ### C6 -/

/-- C6 (counterexample): the claim states that every user-supplied limit
is clamped into `[1, 50]` with non-exact values snapped up to the next
multiple of 5 and the values 1–4 kept verbatim, with no in-range value
rejected; but `validate_limit` rejects 2 (claimed to be kept verbatim)
and 7 (claimed to be snapped to 10) with a `BadParameter` error. -/
theorem c6_counterexample :
    validate_limit 2 =
      Except.error ("--limit must be 1 or 5,10,15,...,50".toList) ∧
    validate_limit 7 =
      Except.error ("--limit must be 1 or 5,10,15,...,50".toList) := by
  refine ⟨rfl, rfl⟩

/-- C6 (amended): `validate_limit` accepts exactly the values
`1, 5, 10, …, 50` — that is, 1 together with the multiples of 5 in
`[5, 50]` — returning them unchanged, and rejects every other value with
a `BadParameter` error. -/
theorem c6_validate_limit_characterization (v : Int) :
    (validate_limit v = Except.ok v ↔
      v = 1 ∨ (5 ≤ v ∧ v ≤ 50 ∧ v % 5 = 0)) ∧
    (validate_limit v =
        Except.error ("--limit must be 1 or 5,10,15,...,50".toList) ↔
      ¬(v = 1 ∨ (5 ≤ v ∧ v ≤ 50 ∧ v % 5 = 0))) := by
  have hmem : v ∈ allowed_limits ↔
      v = 1 ∨ (5 ≤ v ∧ v ≤ 50 ∧ v % 5 = 0) := by
    simp only [allowed_limits, List.mem_cons, List.mem_singleton,
      List.not_mem_nil, or_false]
    omega
  constructor
  · constructor
    · intro h2
      refine hmem.mp ?_
      by_contra hv
      simp [validate_limit, hv] at h2
    · intro h2
      have hv := hmem.mpr h2
      simp [validate_limit, hv]
  · constructor
    · intro h2 hrhs
      have hv := hmem.mpr hrhs
      simp [validate_limit, hv] at h2
    · intro h2
      have hv : v ∉ allowed_limits := fun hv => h2 (hmem.mp hv)
      simp [validate_limit, hv]

/-- C6 witness: 20 is accepted unchanged and 2 is rejected. -/
theorem c6_validate_limit_witness :
    validate_limit 20 = Except.ok 20 ∧
    validate_limit 2 ≠ Except.ok 2 := by
  constructor
  · exact (c6_validate_limit_characterization 20).1.mpr (by omega)
  · intro h
    have := (c6_validate_limit_characterization 2).1.mp h
    omega

/-! ### C9 -/

/-- C9: the pipeline's result has length at most the limit, and when zero
items survive the filter stage the result is the empty list rather than
an error. -/
theorem c9_limit_invariant (raw : List Entry) (dtSince dtUntil : Option Int)
    (parent : Option Kwd) (children : List Kwd) (limit : Nat) :
    (cmd_search_core raw dtSince dtUntil parent children limit).length ≤
      limit ∧
    (collectEntries dtSince dtUntil parent children raw = [] →
      cmd_search_core raw dtSince dtUntil parent children limit = []) := by
  constructor
  · exact List.length_take_le _ _
  · intro h
    unfold cmd_search_core
    rw [h]
    simp [dedupe_entries, dedupe_go, sortEntries]

/-- C9 witness: an empty source list filters to nothing and yields the
empty result. -/
theorem c9_limit_invariant_witness :
    cmd_search_core [] (some 0) none none [] 20 = [] :=
  (c9_limit_invariant [] (some 0) none none [] 20).2 rfl

/-! ### C10 -/

/-- C10: a term with empty text never matches: `match_term` returns
`false` on the empty term and `text_matches_keyword` returns `false` on a
keyword with empty text; and the degenerate input `=` indeed survives
`parse_keywords` as a parent term with empty text and the exact tag set,
so it can only exclude items, never match every item. -/
theorem c10_empty_term_never_matches :
    (∀ text : List Char, match_term text [] = false) ∧
    (∀ (text : List Char) (kwd : Kwd), kwd.text = [] →
      text_matches_keyword text kwd = false) ∧
    parse_keywords [("=".toList)] = (some ⟨[], true⟩, []) := by
  refine ⟨fun text => rfl, fun text kwd h => ?_, by decide⟩
  simp [text_matches_keyword, h, lowerStr]

/-- C10 witness: the empty-text cases at a concrete haystack. -/
theorem c10_empty_term_witness :
    match_term ("anything".toList) [] = false ∧
    text_matches_keyword ("anything".toList) ⟨[], true⟩ = false :=
  ⟨c10_empty_term_never_matches.1 _,
    c10_empty_term_never_matches.2.1 _ _ rfl⟩

/-! ### C2 -/

/-- C2: for every item text and non-empty list of non-blank child terms,
mode `ALL` accepts exactly when every child individually matches the text
and mode `ANY` accepts exactly when at least one child matches. -/
theorem c2_children_all_any (text : List Char) (children : List (List Char))
    (hne : children ≠ []) (hnb : ∀ c ∈ children, trim c ≠ []) :
    ((children_match text children ("ALL".toList)).1 = true ↔
      ∀ c ∈ children, match_term text c = true) ∧
    ((children_match text children ("ANY".toList)).1 = true ↔
      ∃ c ∈ children, match_term text c = true) := by
  have hfilter : (children.filter fun c => trim c ≠ []) = children :=
    List.filter_eq_self.mpr fun a ha => by simp [hnb a ha]
  constructor
  · simp only [children_match, hfilter, if_neg hne, if_pos rfl]
    constructor
    · intro h
      have hlen : (children.filter fun c => match_term text c).length =
          children.length := by simpa using h
      have := (List.filter_sublist _).eq_of_length hlen
      intro c hc
      rw [← this] at hc
      exact (List.mem_filter.mp hc).2
    · intro h
      have : (children.filter fun c => match_term text c) = children :=
        List.filter_eq_self.mpr fun a ha => h a ha
      simp [this]
  · have hAnyNeqAll : ("ANY".toList) ≠ ("ALL".toList) := by decide
    simp only [children_match, hfilter, if_neg hne, if_neg hAnyNeqAll]
    cases hh : children.filter fun c => match_term text c with
    | nil =>
      simp only [List.filter_eq_nil_iff] at hh
      constructor
      · intro h; cases h
      · rintro ⟨c, hc, hm⟩
        exact absurd hm (by simpa using hh c hc)
    | cons hfst rest =>
      constructor
      · intro _
        have : hfst ∈ children.filter fun c => match_term text c := by
          rw [hh]; exact List.mem_cons_self _ _
        have := List.mem_filter.mp this
        exact ⟨hfst, this.1, by simpa using this.2⟩
      · intro _; rfl

/-- C2 witness: the spec scenario — children `["chips", "export"]` on an
item matching only `"chips"` is excluded under `ALL` and included under
`ANY`. -/
theorem c2_children_all_any_witness :
    (children_match ("has chips only".toList)
      ["chips".toList, "export".toList] ("ALL".toList)).1 = false ∧
    (children_match ("has chips only".toList)
      ["chips".toList, "export".toList] ("ANY".toList)).1 = true := by
  have h := c2_children_all_any ("has chips only".toList)
    ["chips".toList, "export".toList] (by decide) (by decide)
  constructor
  · refine Bool.eq_false_iff.mpr fun hx => ?_
    exact absurd (h.1.mp hx) (by decide)
  · exact h.2.mpr ⟨"chips".toList, by decide, by decide⟩

/-! ### C8 -/

theorem dedupe_go_sublist (seen : List (List Char × List Char))
    (l : List Entry) : (dedupe_go seen l).Sublist l := by
  induction l generalizing seen with
  | nil => exact List.Sublist.refl _
  | cons e es ih =>
    simp only [dedupe_go]
    split
    · exact (ih seen).cons e
    · exact (ih _).cons₂ e

theorem dedupe_go_filter (k : List Char × List Char) (l : List Entry) :
    ∀ seen, (dedupe_go seen l).filter (fun e => decide (dkey e = k)) =
      if k ∈ seen then []
      else (l.filter fun e => decide (dkey e = k)).take 1 := by
  induction l with
  | nil =>
    intro seen
    by_cases h2 : k ∈ seen <;> simp [dedupe_go, h2]
  | cons e es ih =>
    intro seen
    simp only [dedupe_go]
    by_cases h1 : dkey e ∈ seen
    · rw [if_pos h1, ih seen]
      by_cases h2 : k ∈ seen
      · simp [h2]
      · have hne : dkey e ≠ k := fun hk => h2 (hk ▸ h1)
        simp [h2, List.filter_cons, hne]
    · rw [if_neg h1]
      by_cases h3 : dkey e = k
      · have hpk : k ∉ seen := h3 ▸ h1
        rw [List.filter_cons]
        simp only [h3, decide_True, if_true]
        rw [ih (k :: seen), if_pos (List.mem_cons_self _ _)]
        simp [hpk, List.filter_cons, h3]
      · have hd : decide (dkey e = k) = false := decide_eq_false h3
        rw [List.filter_cons, hd]
        simp only [Bool.false_eq_true, if_false]
        rw [ih (dkey e :: seen)]
        by_cases h2 : k ∈ seen
        · rw [if_pos (List.mem_cons_of_mem _ h2), if_pos h2]
        · have hnotin : k ∉ dkey e :: seen := by
            intro hk
            rcases List.mem_cons.mp hk with hk | hk
            · exact h3 hk.symm
            · exact h2 hk
          rw [if_neg hnotin, if_neg h2]
          simp [List.filter_cons, hd]

/-- C8 (counterexample): the claim states that deduplication keys on the
literal `(title, link)` pair and keeps, for each pair present in the
input, exactly its first occurrence. `dedupe_entries` keys on the
whitespace-stripped pair instead: with input
`[entry_spaced, entry_plain]`, whose titles `"a "` and `"a"` differ
literally but agree after stripping, the literal pair
`("a", "x")` of `entry_plain` occurs in the input, yet no output element
carries it — its first occurrence was not kept. -/
theorem c8_counterexample :
    dedupe_entries [entry_spaced, entry_plain] = [entry_spaced] ∧
    decide (entry_spaced.title = entry_plain.title) = false := by
  refine ⟨by decide, by decide⟩

/-- C8 (amended): deduplication keys on the whitespace-stripped
`(title, link)` pair: the output is a subsequence of the input (survivor
order is input order), and for every key the output retains exactly the
first input occurrence of that key — so no two output elements share a
stripped key, and two items with identical `(title, link)` but different
summaries yield exactly the first one. For inputs whose titles and links
carry no surrounding whitespace (as holds for every list the pipeline
passes to `dedupe_entries`, since the fields were normalized) the
stripped pair coincides with the literal pair and the original claim
holds. -/
theorem c8_dedupe_first_occurrence (l : List Entry) :
    (dedupe_entries l).Sublist l ∧
    ∀ k, (dedupe_entries l).filter (fun e => decide (dkey e = k)) =
      (l.filter fun e => decide (dkey e = k)).take 1 := by
  constructor
  · exact dedupe_go_sublist [] l
  · intro k
    have h := dedupe_go_filter k l []
    simpa using h

/-! ### C7 -/

theorem keyLe_refl (a : Int × Int) : keyLe a a = true := by
  simp [keyLe]

theorem keyLe_total (a b : Int × Int) :
    keyLe a b = true ∨ keyLe b a = true := by
  obtain ⟨a1, a2⟩ := a
  obtain ⟨b1, b2⟩ := b
  simp [keyLe]
  omega

theorem keyLe_trans {a b c : Int × Int} (h1 : keyLe a b = true)
    (h2 : keyLe b c = true) : keyLe a c = true := by
  obtain ⟨a1, a2⟩ := a
  obtain ⟨b1, b2⟩ := b
  obtain ⟨c1, c2⟩ := c
  simp [keyLe] at h1 h2 ⊢
  omega

theorem sort_key_congr {a b : Entry} (h : a.published = b.published) :
    sort_key a = sort_key b := by
  simp [sort_key, h]

theorem mem_insertEntry {x z : Entry} {l : List Entry} :
    z ∈ insertEntry x l ↔ z = x ∨ z ∈ l := by
  induction l with
  | nil => simp [insertEntry]
  | cons y ys ih =>
    simp only [insertEntry]
    split
    · simp only [List.mem_cons, ih]
      tauto
    · simp only [List.mem_cons]

theorem sorted_insertEntry {x : Entry} {l : List Entry}
    (hl : l.Pairwise fun a b => keyLe (sort_key a) (sort_key b) = true) :
    (insertEntry x l).Pairwise
      fun a b => keyLe (sort_key a) (sort_key b) = true := by
  induction l with
  | nil => simp [insertEntry]
  | cons y ys ih =>
    rw [List.pairwise_cons] at hl
    obtain ⟨hy, hys⟩ := hl
    simp only [insertEntry]
    split
    · rename_i hyx
      rw [List.pairwise_cons]
      refine ⟨fun z hz => ?_, ih hys⟩
      rcases mem_insertEntry.mp hz with rfl | hz'
      · exact hyx
      · exact hy z hz'
    · rename_i hyx
      have hxy : keyLe (sort_key x) (sort_key y) = true := by
        rcases keyLe_total (sort_key x) (sort_key y) with h | h
        · exact h
        · exact absurd h (by simpa using hyx)
      rw [List.pairwise_cons]
      refine ⟨fun z hz => ?_, List.pairwise_cons.mpr ⟨hy, hys⟩⟩
      rcases List.mem_cons.mp hz with rfl | hz'
      · exact hxy
      · exact keyLe_trans hxy (hy z hz')

theorem filter_insertEntry (v : Option Int) {x : Entry} {l : List Entry}
    (hl : l.Pairwise fun a b => keyLe (sort_key a) (sort_key b) = true) :
    (insertEntry x l).filter (fun e => decide (e.published = v)) =
      if x.published = v then
        (l.filter fun e => decide (e.published = v)) ++ [x]
      else l.filter fun e => decide (e.published = v) := by
  induction l with
  | nil =>
    by_cases hx : x.published = v <;> simp [insertEntry, hx]
  | cons y ys ih =>
    rw [List.pairwise_cons] at hl
    obtain ⟨hy, hys⟩ := hl
    simp only [insertEntry]
    split
    · rename_i hyx
      rw [List.filter_cons, List.filter_cons, ih hys]
      by_cases hx : x.published = v <;> by_cases hpy : y.published = v <;>
        simp [hx, hpy]
    · rename_i hyx
      have hyx' : keyLe (sort_key y) (sort_key x) = false := by
        simpa using hyx
      by_cases hx : x.published = v
      · have hG : (y :: ys).filter (fun e => decide (e.published = v)) =
            [] := by
          rw [List.filter_eq_nil_iff]
          intro z hz
          simp only [decide_eq_true_eq]
          intro hzv
          have hkey : sort_key z = sort_key x :=
            sort_key_congr (by rw [hzv, hx])
          rcases List.mem_cons.mp hz with rfl | hz'
          · rw [hkey, keyLe_refl] at hyx'
            cases hyx'
          · have := hy z hz'
            rw [hkey] at this
            rw [this] at hyx'
            cases hyx'
        rw [List.filter_cons, hG]
        simp [hx, List.filter_cons]
      · rw [List.filter_cons, List.filter_cons]
        simp [hx]

theorem foldl_insert_sorted : ∀ (l acc : List Entry),
    acc.Pairwise (fun a b => keyLe (sort_key a) (sort_key b) = true) →
    (l.foldl (fun a x => insertEntry x a) acc).Pairwise
      (fun a b => keyLe (sort_key a) (sort_key b) = true) := by
  intro l
  induction l with
  | nil => intro acc h; exact h
  | cons x xs ih =>
    intro acc h
    exact ih (insertEntry x acc) (sorted_insertEntry h)

theorem foldl_insert_filter (v : Option Int) : ∀ (l acc : List Entry),
    acc.Pairwise (fun a b => keyLe (sort_key a) (sort_key b) = true) →
    (l.foldl (fun a x => insertEntry x a) acc).filter
        (fun e => decide (e.published = v)) =
      (acc.filter fun e => decide (e.published = v)) ++
        (l.filter fun e => decide (e.published = v)) := by
  intro l
  induction l with
  | nil => intro acc h; simp
  | cons x xs ih =>
    intro acc h
    rw [List.foldl_cons, ih (insertEntry x acc) (sorted_insertEntry h),
      filter_insertEntry v h, List.filter_cons]
    by_cases hx : x.published = v <;> simp [hx]

theorem keyLe_pub_ge {a b : Entry}
    (h : keyLe (sort_key a) (sort_key b) = true) : pub_ge a b = true := by
  cases ha : a.published with
  | none =>
    cases hb : b.published with
    | none => simp [pub_ge, ha, hb]
    | some tb => simp [sort_key, ha, hb, keyLe] at h
  | some ta =>
    cases hb : b.published with
    | none => simp [pub_ge, ha, hb]
    | some tb =>
      simp only [sort_key, ha, hb, keyLe] at h
      simp only [pub_ge, ha, hb, decide_eq_true_eq]
      simp at h
      omega

/-- C7: the sort stage orders every pair of result entries non-increasing
by `published` with unknown timestamps after all known ones (`pub_ge`
pairwise), and it is stable — for every `published` value, the entries
carrying that value appear in exactly their original relative order. -/
theorem c7_sort_descending_stable (l : List Entry) :
    (sortEntries l).Pairwise (fun a b => pub_ge a b = true) ∧
    ∀ v : Option Int, (sortEntries l).filter
        (fun e => decide (e.published = v)) =
      l.filter fun e => decide (e.published = v) := by
  constructor
  · exact (foldl_insert_sorted l [] List.Pairwise.nil).imp keyLe_pub_ge
  · intro v
    have h := foldl_insert_filter v l [] List.Pairwise.nil
    simpa [sortEntries] using h

/-! ### C5 -/

/-- C5 (counterexample): the claim states the normalizer resolves
`published` by trying structured time fields first and free-text fields
only as a fallback. On `feed_entry_both` — which carries both a parsable
free-text `published` ("2025-01-02") and a valid `published_parsed`
struct (2026-03-04 05:06:07) — `safe_parse_date` returns the instant of
the free-text field, not that of the structured field, so free text is
tried first, contradicting the claimed order. -/
theorem c5_counterexample :
    safe_parse_date dateutil_parse_model feed_entry_both =
      some 1735776000 ∧
    feed_entry_both.published_parsed.bind structToDatetime =
      some 1772600767 ∧
    decide ((1735776000 : Int) = 1772600767) = false := by
  refine ⟨by decide, by decide, by decide⟩

/-- C5 (amended): the streamlit normalizer `safe_parse_date` resolves the
published timestamp by first trying the free-text date fields in the
fixed preference order `published` > `updated` > `created`, and only if
none of those is present and parsable falls back to the structured
struct-time fields in the order `published_parsed` > `updated_parsed`;
when every attempt fails the result is `none` and no error escapes (the
function is total). Stated for every behavior `dtp` of the external
`dateutil` text parser. -/
theorem c5_timestamp_resolution_order (dtp : List Char → Option Int)
    (e : FeedEntry) :
    (safe_parse_date dtp e = none ↔
      e.published.bind dtp = none ∧ e.updated.bind dtp = none ∧
      e.created.bind dtp = none ∧
      e.published_parsed.bind structToDatetime = none ∧
      e.updated_parsed.bind structToDatetime = none) ∧
    (∀ t, e.published.bind dtp = some t → safe_parse_date dtp e = some t) ∧
    (e.published.bind dtp = none → ∀ t, e.updated.bind dtp = some t →
      safe_parse_date dtp e = some t) ∧
    (e.published.bind dtp = none → e.updated.bind dtp = none →
      ∀ t, e.created.bind dtp = some t → safe_parse_date dtp e = some t) ∧
    (e.published.bind dtp = none → e.updated.bind dtp = none →
      e.created.bind dtp = none → ∀ t,
      e.published_parsed.bind structToDatetime = some t →
      safe_parse_date dtp e = some t) ∧
    (e.published.bind dtp = none → e.updated.bind dtp = none →
      e.created.bind dtp = none →
      e.published_parsed.bind structToDatetime = none → ∀ t,
      e.updated_parsed.bind structToDatetime = some t →
      safe_parse_date dtp e = some t) := by
  rcases h1 : e.published.bind dtp with _ | t1 <;>
    rcases h2 : e.updated.bind dtp with _ | t2 <;>
      rcases h3 : e.created.bind dtp with _ | t3 <;>
        rcases h4 : e.published_parsed.bind structToDatetime with _ | t4 <;>
          rcases h5 : e.updated_parsed.bind structToDatetime with _ | t5 <;>
            simp [safe_parse_date, h1, h2, h3, h4, h5]

/-- C5 witness: with no `published` text, the `updated` text (rather than
the also-present `updated_parsed` struct) supplies the timestamp. -/
theorem c5_timestamp_resolution_witness :
    safe_parse_date dateutil_parse_model feed_entry_updated =
      some 1735776000 :=
  (c5_timestamp_resolution_order dateutil_parse_model
    feed_entry_updated).2.2.1 (by decide) 1735776000 (by decide)

/-! ### C3 -/

/-- C3 (counterexample): the claim states that a string matching neither
the relative-duration grammar nor the absolute-date grammar makes the
parser fail with an `InvalidDurationFormat` error rather than silently
producing no bound. On the malformed input `"xyz"` the parser returns
`none` — silently producing no bound; its result type has no error
outcome at all, so no `InvalidDurationFormat` failure is possible. In
`cmd_search` a malformed `--since`/`--until` therefore simply disables
that bound. -/
theorem c3_counterexample : parse_since_until ("xyz".toList) 0 = none := by
  decide

/-- C3 (amended): for every valid relative duration string — optional
whitespace, one or more digits, optional whitespace, a unit letter in
`smhdw` of either case, optional whitespace — `parse_since_until` returns
exactly `now - N * unit_duration`; and for every string rejected by both
the duration regex and the absolute-date formats it returns `none` (no
bound) instead of raising an error. -/
theorem c3_relative_exact_and_malformed_none (now : Int)
    (w1 w2 w3 ds : List Char) (u : Char)
    (hw1 : ∀ c ∈ w1, c.isWhitespace = true)
    (hw2 : ∀ c ∈ w2, c.isWhitespace = true)
    (hw3 : ∀ c ∈ w3, c.isWhitespace = true)
    (hds : ds ≠ []) (hdig : ∀ c ∈ ds, c.isDigit = true)
    (hu : u ∈ ['s', 'S', 'm', 'M', 'h', 'H', 'd', 'D', 'w', 'W']) :
    parse_since_until (w1 ++ (ds ++ (w2 ++ u :: w3))) now =
      some (now - (natOfDigits ds : Int) * unitSeconds (lowerChar u)) ∧
    ∀ s : List Char, durationMatch s = none →
      parse_datetime_string s = none → parse_since_until s now = none := by
  have hu_ws : u.isWhitespace = false := by fin_cases hu <;> decide
  have hu_digit : u.isDigit = false := by fin_cases hu <;> decide
  have hu_unit : lowerChar u = 's' ∨ lowerChar u = 'm' ∨ lowerChar u = 'h' ∨
      lowerChar u = 'd' ∨ lowerChar u = 'w' := by fin_cases hu <;> decide
  constructor
  · obtain ⟨d, ds', rfl⟩ : ∃ d ds', ds = d :: ds' := by
      cases ds with
      | nil => exact absurd rfl hds
      | cons a b => exact ⟨a, b, rfl⟩
    have hd : d.isDigit = true := hdig d (List.mem_cons_self _ _)
    have hrest_take : (w2 ++ u :: w3).takeWhile Char.isDigit = [] := by
      cases w2 with
      | nil => simp [List.takeWhile_cons, hu_digit]
      | cons c cs =>
        have := ws_not_digit (hw2 c (List.mem_cons_self _ _))
        simp [List.takeWhile_cons, this]
    have hrest_drop : (w2 ++ u :: w3).dropWhile Char.isDigit =
        w2 ++ u :: w3 := by
      cases w2 with
      | nil => simp [List.dropWhile_cons, hu_digit]
      | cons c cs =>
        have := ws_not_digit (hw2 c (List.mem_cons_self _ _))
        simp [List.dropWhile_cons, this]
    have e1 : (w1 ++ ((d :: ds') ++ (w2 ++ u :: w3))).dropWhile
        Char.isWhitespace = (d :: ds') ++ (w2 ++ u :: w3) := by
      rw [dropWhile_append_all hw1]
      simp [List.dropWhile_cons, digit_not_ws hd]
    have e2 : ((d :: ds') ++ (w2 ++ u :: w3)).takeWhile Char.isDigit =
        d :: ds' := takeWhile_append_all hdig hrest_take
    have e3 : ((d :: ds') ++ (w2 ++ u :: w3)).dropWhile Char.isDigit =
        w2 ++ u :: w3 := by
      rw [dropWhile_append_all hdig, hrest_drop]
    have e4 : (w2 ++ u :: w3).dropWhile Char.isWhitespace = u :: w3 := by
      rw [dropWhile_append_all hw2]
      simp [List.dropWhile_cons, hu_ws]
    have e5 : w3.dropWhile Char.isWhitespace = [] := dropWhile_eq_nil_all hw3
    have hm : durationMatch (w1 ++ ((d :: ds') ++ (w2 ++ u :: w3))) =
        some (natOfDigits (d :: ds'), lowerChar u) := by
      unfold durationMatch
      simp only [e1, e2, e3, e4, e5]
      simp [hu_unit]
    have hne : w1 ++ ((d :: ds') ++ (w2 ++ u :: w3)) ≠ [] := by simp
    unfold parse_since_until
    rw [if_neg hne, hm]
  · intro s hdm hpd
    by_cases hs : s = []
    · simp [parse_since_until, hs]
    · simp [parse_since_until, hs, hdm, hpd]

/-- C3 witness: `" 7 d "` parses to `now - 7 * 86400` (seven days before
`now = 1000000`), and the malformed-input clause is grounded by
`c3_counterexample`. -/
theorem c3_relative_exact_witness :
    parse_since_until ([' '] ++ (['7'] ++ ([' '] ++ 'd' :: [' ']))) 1000000 =
      some 395200 := by
  have h := (c3_relative_exact_and_malformed_none 1000000 [' '] [' '] [' ']
    ['7'] 'd' (by decide) (by decide) (by decide) (by decide) (by decide)
    (by decide)).1
  rw [h]
  decide

end NewsAgent
